import Mathlib

/-!
Shallow embedding of the core of the Solana DeFi adoption dashboard
(src/app.py): the TVL fetcher, the snapshot builder and the metrics engine.

Modelling conventions:
* Monetary amounts and derived statistics are rationals; a pandas NaN cell is
  modelled as none in Option ℚ.
* pd.to_datetime(-, unit="s") is a strictly monotone injection of epoch seconds
  into calendar timestamps, so a timestamp is represented by its epoch seconds.
* The floating square root inside rolling(7).std() is abstracted as a parameter
  sqrtFn : ℚ → ℚ applied to the sample variance; every property verified here
  holds for an arbitrary sqrtFn.
* Rational division by zero yields 0 in Lean while float division of nonzero
  by zero yields ±inf in Python; the theorems below either never divide by
  zero or carry an explicit nonzero hypothesis.
-/

/-- Protocol Descriptor: immutable static record, an entry of SOLANA_PROTOCOLS
(src/app.py lines 45-51). -/
structure ProtocolDescriptor where
  name : String
  slug : String
  deriving DecidableEq

/-- One entry of the JSON "tvl" list: a dict that carries a date and may or may
not carry the "totalLiquidityUSD" key (a key missing from a dict renders as NaN
in the pandas frame, modelled as none). -/
structure TvlRecord where
  date : Int
  totalLiquidityUSD : Option ℚ
  deriving DecidableEq

/-- Shape of the "tvl" field of the decoded JSON payload (src/app.py line 66
checks both presence and list-ness). -/
inductive TvlField where
  | missing : TvlField
  | notList : TvlField
  | list (records : List TvlRecord) : TvlField
  deriving DecidableEq

/-- Exceptions that requests.get and Response.json raise; load_protocol_tvl has
no try/except, so these propagate to its caller. -/
inductive FetchError where
  | networkError : FetchError
  | jsonDecodeError : FetchError
  deriving DecidableEq

/-- Outcome of the HTTP GET: either the request itself fails (requests.get
raises) or a response arrives with a status code and a body; a body of none
stands for a payload that is not valid JSON, on which r.json() raises. -/
inductive HttpResult where
  | failure : HttpResult
  | response (status : Nat) (body : Option TvlField) : HttpResult

/-- Decoding df["date"] from epoch seconds (src/app.py line 74); since
timestamps are represented by their epoch seconds the decode is the identity on
the representative. -/
def decodeDate (t : Int) : Int := t

/-- Whether "totalLiquidityUSD" is among the columns of pd.DataFrame(records):
pandas takes the union of the dict keys (src/app.py line 71). -/
def hasLiquidityColumn (records : List TvlRecord) : Bool :=
  records.any fun r => r.totalLiquidityUSD.isSome

/-- load_protocol_tvl (src/app.py lines 56-75). Except.error marks an exception
escaping the function; Except.ok none is the explicit no-data return. -/
def load_protocol_tvl : HttpResult → Except FetchError (Option (List TvlRecord))
  | HttpResult.failure => Except.error FetchError.networkError
  | HttpResult.response status body =>
    if status ≠ 200 then Except.ok none
    else
      match body with
      | none => Except.error FetchError.jsonDecodeError
      | some TvlField.missing => Except.ok none
      | some TvlField.notList => Except.ok none
      | some (TvlField.list records) =>
        if records.isEmpty || !hasLiquidityColumn records then Except.ok none
        else Except.ok (some (records.map fun r => { r with date := decodeDate r.date }))

/-- The five hard-coded protocols (src/app.py lines 45-51). -/
def SOLANA_PROTOCOLS : List ProtocolDescriptor :=
  [{ name := "Raydium", slug := "raydium" },
   { name := "Orca", slug := "orca" },
   { name := "Jupiter", slug := "jupiter" },
   { name := "Marinade", slug := "marinade" },
   { name := "Drift", slug := "drift" }]

/-- Row of the snapshot table (src/app.py lines 85-89). -/
structure SnapshotRow where
  name : String
  slug : String
  tvl : Option ℚ
  deriving DecidableEq

/-- Last cell of the totalLiquidityUSD column, hist["totalLiquidityUSD"].iloc[-1];
none covers the empty frame (unreachable given the fetcher, which rejects empty
frames) and a NaN cell in the last row. -/
def lastLiquidity (hist : List TvlRecord) : Option ℚ :=
  hist.getLast?.bind fun r => r.totalLiquidityUSD

/-- Body of build_protocol_snapshot generalized over the protocol list; the
fetch oracle maps a slug to the cached fetcher result as downstream code sees
it (None or a data frame). -/
def snapshotRows (fetch : String → Option (List TvlRecord))
    (ps : List ProtocolDescriptor) : List SnapshotRow :=
  ps.filterMap fun p =>
    match fetch p.slug with
    | none => none
    | some hist => some { name := p.name, slug := p.slug, tvl := lastLiquidity hist }

/-- build_protocol_snapshot (src/app.py lines 78-91). -/
def build_protocol_snapshot (fetch : String → Option (List TvlRecord)) : List SnapshotRow :=
  snapshotRows fetch SOLANA_PROTOCOLS

/-- Comparison used by hist.sort_values("date"). -/
def dateLe (a b : TvlRecord) : Prop := a.date ≤ b.date

instance : DecidableRel dateLe := fun a b => inferInstanceAs (Decidable (a.date ≤ b.date))

/-- One cell of Series.pct_change(): current over previous; NaN when either
cell is NaN. -/
def pctCell : Option ℚ → Option ℚ → Option ℚ
  | some p, some c => some ((c - p) / p)
  | _, _ => none

def pctChangeAux : Option ℚ → List (Option ℚ) → List (Option ℚ)
  | _, [] => []
  | prev, c :: rest => pctCell prev c :: pctChangeAux c rest

/-- Series.pct_change() (src/app.py line 104): first cell NaN, then day-over-day
relative change. -/
def pctChange : List (Option ℚ) → List (Option ℚ)
  | [] => []
  | x :: rest => none :: pctChangeAux x rest

/-- Arithmetic mean of a list of rationals. -/
def listMean (xs : List ℚ) : ℚ := xs.sum / xs.length

/-- Sample variance with ddof = 1, the square of what pandas rolling std
computes on a full window. -/
def sampleVar (w : List ℚ) : ℚ :=
  ((w.map fun x => (x - listMean w) ^ 2).sum) / ((w.length : ℚ) - 1)

/-- One rolling output cell. The buffer holds the trailing window (the last
min(position + 1, 7) cells); with min_periods = window = 7, pandas emits a
value only when the window holds 7 non-NaN cells, and applies the sample
standard deviation to them. -/
def stdOfWindow (sqrtFn : ℚ → ℚ) (buf : List (Option ℚ)) : Option ℚ :=
  let vals := buf.filterMap id
  if vals.length = 7 then some (sqrtFn (sampleVar vals)) else none

def rollAux (sqrtFn : ℚ → ℚ) : List (Option ℚ) → List (Option ℚ) → List (Option ℚ)
  | _, [] => []
  | buf, x :: rest =>
    let buf1 := (buf ++ [x]).drop (buf.length + 1 - 7)
    stdOfWindow sqrtFn buf1 :: rollAux sqrtFn buf1 rest

/-- Series.rolling(7).std() (src/app.py line 112): trailing windows of width 7. -/
def rollingStd7 (sqrtFn : ℚ → ℚ) (xs : List (Option ℚ)) : List (Option ℚ) :=
  rollAux sqrtFn [] xs

/-- Series.mean(): skips NaN cells; the mean of an all-NaN series is NaN. -/
def meanSkipna (xs : List (Option ℚ)) : Option ℚ :=
  let vals := xs.filterMap id
  if vals.isEmpty then none else some (listMean vals)

/-- Adoption Metrics Row (src/app.py lines 114-118). -/
structure MetricsRow where
  protocol : String
  growth_rate : Option ℚ
  volatility : Option ℚ
  deriving DecidableEq

/-- Per-protocol body of compute_adoption_metrics (src/app.py lines 103-118):
sort by date, take percentage change, growth as last over first minus one,
volatility as the skipna mean of the 7-rolling standard deviation. -/
def computeMetricsRow (sqrtFn : ℚ → ℚ) (name : String) (hist : List TvlRecord) : MetricsRow :=
  let sorted := List.insertionSort dateLe hist
  let col := sorted.map fun r => r.totalLiquidityUSD
  let daily := pctChange col
  let growth : Option ℚ :=
    match col.getLast?.bind id, col.head?.bind id with
    | some lastV, some firstV => some (lastV / firstV - 1)
    | _, _ => none
  let vol := meanSkipna (rollingStd7 sqrtFn daily)
  { protocol := name, growth_rate := growth, volatility := vol }

/-- Body of compute_adoption_metrics generalized over the protocol list
(src/app.py lines 94-120): skip a protocol whose fetch returned no data or
fewer than 14 rows. -/
def metricsRows (sqrtFn : ℚ → ℚ) (fetch : String → Option (List TvlRecord))
    (ps : List ProtocolDescriptor) : List MetricsRow :=
  ps.filterMap fun p =>
    match fetch p.slug with
    | none => none
    | some hist =>
      if hist.length < 14 then none else some (computeMetricsRow sqrtFn p.name hist)

/-- compute_adoption_metrics (src/app.py lines 94-120). -/
def compute_adoption_metrics (sqrtFn : ℚ → ℚ)
    (fetch : String → Option (List TvlRecord)) : List MetricsRow :=
  metricsRows sqrtFn fetch SOLANA_PROTOCOLS

/-- Minimum of a list of rationals. -/
def listMin : List ℚ → Option ℚ
  | [] => none
  | x :: xs =>
    match listMin xs with
    | none => some x
    | some y => some (if x ≤ y then x else y)

/-- Maximum of a list of rationals. -/
def listMax : List ℚ → Option ℚ
  | [] => none
  | x :: xs =>
    match listMax xs with
    | none => some x
    | some y => some (if y ≤ x then x else y)

/-- Series.min() with skipna: minimum over the non-NaN cells, NaN if none. -/
def colMin (xs : List (Option ℚ)) : Option ℚ := listMin (xs.filterMap id)

/-- Series.max() with skipna: maximum over the non-NaN cells, NaN if none. -/
def colMax (xs : List (Option ℚ)) : Option ℚ := listMax (xs.filterMap id)

/-- Min-max normalization of a metrics column (src/app.py lines 241-251):
(x - min) / (max - min). On a zero-range column the float computation is
0 / 0 = NaN, modelled as none; NaN cells stay NaN. -/
def minmaxNormalize (xs : List (Option ℚ)) : List (Option ℚ) :=
  match colMin xs, colMax xs with
  | some lo, some hi =>
    xs.map fun o => o.bind fun x => if hi = lo then none else some ((x - lo) / (hi - lo))
  | _, _ => xs.map fun _ => none

/-- The composite weighting norm_growth * 0.6 + (1 - norm_volatility) * 0.4
(src/app.py lines 253-256). -/
def aqs (g v : ℚ) : ℚ := g * (6 / 10) + (1 - v) * (4 / 10)

/-- Scored Row: metrics row extended with the normalized columns and the
adoption quality score. -/
structure ScoredRow where
  protocol : String
  growth_rate : Option ℚ
  volatility : Option ℚ
  norm_growth : Option ℚ
  norm_volatility : Option ℚ
  adoption_quality_score : Option ℚ
  deriving DecidableEq

def scoreRow (r : MetricsRow) (g v : Option ℚ) : ScoredRow :=
  { protocol := r.protocol, growth_rate := r.growth_rate, volatility := r.volatility,
    norm_growth := g, norm_volatility := v,
    adoption_quality_score := g.bind fun a => v.map fun b => aqs a b }

/-- The scoring block of src/app.py lines 241-256: normalize the growth and
volatility columns over the cohort, then weight them into the score; NaN
propagates through the float arithmetic, hence through Option. -/
def scoreTable (rows : List MetricsRow) : List ScoredRow :=
  let ng := minmaxNormalize (rows.map fun r => r.growth_rate)
  let nv := minmaxNormalize (rows.map fun r => r.volatility)
  (rows.zip (ng.zip nv)).map fun rc => scoreRow rc.1 rc.2.1 rc.2.2

/-- A fully populated record: date paired with a present liquidity value. -/
def mkRecord (dv : Int × ℚ) : TvlRecord :=
  { date := dv.1, totalLiquidityUSD := some dv.2 }

/-- A fully populated series: every record carries a liquidity value. -/
def mkSeries (l : List (Int × ℚ)) : List TvlRecord :=
  l.map mkRecord

/-- Chronological order on date-value pairs, the spec-side counterpart of
sorting the data frame by its date column. -/
def pairLe (x y : Int × ℚ) : Prop := x.1 ≤ y.1

instance : DecidableRel pairLe := fun x y => inferInstanceAs (Decidable (x.1 ≤ y.1))

instance : IsTotal TvlRecord dateLe := ⟨fun a b => Int.le_total a.date b.date⟩

instance : IsTrans TvlRecord dateLe := ⟨fun _ _ _ h1 h2 => le_trans h1 h2⟩

/-- Spec-side pairwise percentage-change list (no NaN bookkeeping), carrying
the previous value. -/
def pctList : ℚ → List ℚ → List ℚ
  | _, [] => []
  | p, c :: rest => ((c - p) / p) :: pctList c rest

/-- Spec-side percentage-change series of a value list: day-over-day relative
changes, one fewer entry than the input. -/
def specPct : List ℚ → List ℚ
  | [] => []
  | v :: vs => pctList v vs

/-- Spec-side list of every width-7 contiguous window, in order. -/
def windows7 : List ℚ → List (List ℚ)
  | [] => []
  | x :: xs => if 7 ≤ xs.length + 1 then (x :: xs).take 7 :: windows7 xs else []

/-- Modelled from the spec: volatility is the arithmetic mean of the 7-sample
rolling standard deviations of the percentage-change series, rolling windows
short of 7 defined observations excluded from the mean. -/
def specVolatility (sqrtFn : ℚ → ℚ) (vs : List ℚ) : ℚ :=
  listMean ((windows7 (specPct vs)).map fun w => sqrtFn (sampleVar w))

/-! Helper lemmas. -/

theorem filterMap_id_map_some {α : Type} (ds : List α) : (ds.map some).filterMap id = ds := by
  induction ds with
  | nil => rfl
  | cons d ds ih => simp [ih]

theorem listMin_eq_none {xs : List ℚ} : listMin xs = none ↔ xs = [] := by
  cases xs with
  | nil => simp [listMin]
  | cons x rest =>
    simp only [listMin]
    cases h : listMin rest <;> simp

theorem listMax_eq_none {xs : List ℚ} : listMax xs = none ↔ xs = [] := by
  cases xs with
  | nil => simp [listMax]
  | cons x rest =>
    simp only [listMax]
    cases h : listMax rest <;> simp

theorem listMin_spec : ∀ {xs : List ℚ} {lo : ℚ}, listMin xs = some lo →
    lo ∈ xs ∧ ∀ x ∈ xs, lo ≤ x := by
  intro xs
  induction xs with
  | nil => intro lo h; cases h
  | cons x rest ih =>
    intro lo h
    simp only [listMin] at h
    cases hr : listMin rest with
    | none =>
      rw [hr] at h
      obtain rfl : rest = [] := listMin_eq_none.mp hr
      simp only [Option.some.injEq] at h
      subst h
      exact ⟨by simp, by simp⟩
    | some y =>
      rw [hr] at h
      obtain ⟨hy, hall⟩ := ih hr
      simp only [Option.some.injEq] at h
      subst h
      by_cases hxy : x ≤ y
      · rw [if_pos hxy]
        refine ⟨by simp, ?_⟩
        intro z hz
        rcases List.mem_cons.mp hz with rfl | hz
        · exact le_refl z
        · exact le_trans hxy (hall z hz)
      · rw [if_neg hxy]
        refine ⟨List.mem_cons_of_mem _ hy, ?_⟩
        intro z hz
        rcases List.mem_cons.mp hz with rfl | hz
        · exact le_of_not_le hxy
        · exact hall z hz

theorem listMax_spec : ∀ {xs : List ℚ} {hi : ℚ}, listMax xs = some hi →
    hi ∈ xs ∧ ∀ x ∈ xs, x ≤ hi := by
  intro xs
  induction xs with
  | nil => intro hi h; cases h
  | cons x rest ih =>
    intro hi h
    simp only [listMax] at h
    cases hr : listMax rest with
    | none =>
      rw [hr] at h
      obtain rfl : rest = [] := listMax_eq_none.mp hr
      simp only [Option.some.injEq] at h
      subst h
      exact ⟨by simp, by simp⟩
    | some y =>
      rw [hr] at h
      obtain ⟨hy, hall⟩ := ih hr
      simp only [Option.some.injEq] at h
      subst h
      by_cases hyx : y ≤ x
      · rw [if_pos hyx]
        refine ⟨by simp, ?_⟩
        intro z hz
        rcases List.mem_cons.mp hz with rfl | hz
        · exact le_refl z
        · exact le_trans (hall z hz) hyx
      · rw [if_neg hyx]
        refine ⟨List.mem_cons_of_mem _ hy, ?_⟩
        intro z hz
        rcases List.mem_cons.mp hz with rfl | hz
        · exact le_of_not_le hyx
        · exact hall z hz

/-! Claim C4. -/

/-- C4: every scored row has adoption_quality_score = 0.6 * norm_growth +
0.4 * (1 - norm_volatility), and the weighting aqs is strictly increasing in
its growth argument and strictly decreasing in its volatility argument. -/
theorem adoption_quality_score_formula_monotone :
    (∀ (rows : List MetricsRow) (i : ℕ),
      ((scoreTable rows)[i]?).map ScoredRow.adoption_quality_score =
        ((scoreTable rows)[i]?).map fun r =>
          r.norm_growth.bind fun a => r.norm_volatility.map fun b => aqs a b) ∧
    (∀ g1 g2 v : ℚ, g1 < g2 → aqs g1 v < aqs g2 v) ∧
    (∀ g v1 v2 : ℚ, v1 < v2 → aqs g v2 < aqs g v1) := by
  refine ⟨?_, ?_, ?_⟩
  · intro rows i
    simp only [scoreTable, scoreRow, List.getElem?_map]
    cases h : (rows.zip ((minmaxNormalize (rows.map fun r => r.growth_rate)).zip
        (minmaxNormalize (rows.map fun r => r.volatility))))[i]? <;> rfl
  · intro g1 g2 v h
    simp only [aqs]
    linarith
  · intro g v1 v2 h
    simp only [aqs]
    linarith

/-- Witness for C4 at concrete inputs. -/
theorem adoption_quality_score_formula_monotone_witness :
    aqs 0 0 < aqs 1 0 ∧ aqs 0 1 < aqs 0 0 :=
  ⟨adoption_quality_score_formula_monotone.2.1 0 1 0 (by norm_num),
   adoption_quality_score_formula_monotone.2.2 0 0 1 (by norm_num)⟩

/-! Claim C5. -/

/-- C5 evaluation: on a cohort of two protocols with identical growth_rate 0.2
(and on a single-protocol cohort) the source computes (x - min) / (max - min)
= 0 / 0, a NaN (none), not a defined neutral constant. -/
theorem degenerate_cohort_norm_growth_nan :
    (scoreTable
        [{ protocol := "A", growth_rate := some (2 / 10), volatility := some (1 / 10) },
         { protocol := "B", growth_rate := some (2 / 10), volatility := some (3 / 10) }]).map
      ScoredRow.norm_growth = [none, none] ∧
    (scoreTable [{ protocol := "C", growth_rate := some 1, volatility := some 1 }]).map
      ScoredRow.norm_growth = [none] := by
  constructor <;>
    norm_num [scoreTable, scoreRow, minmaxNormalize, colMin, colMax, listMin, listMax]

/-! Claim C3. -/

theorem minmaxNormalize_length (xs : List (Option ℚ)) :
    (minmaxNormalize xs).length = xs.length := by
  unfold minmaxNormalize
  cases colMin xs <;> cases colMax xs <;> simp

theorem zip_scoreRow_growth : ∀ (rows : List MetricsRow) (ng nv : List (Option ℚ)),
    ng.length = rows.length → nv.length = rows.length →
    ((rows.zip (ng.zip nv)).map fun rc => (scoreRow rc.1 rc.2.1 rc.2.2).norm_growth) = ng := by
  intro rows
  induction rows with
  | nil =>
    intro ng nv h1 _
    cases ng with
    | nil => rfl
    | cons g ng => simp at h1
  | cons r rows ih =>
    intro ng nv h1 h2
    cases ng with
    | nil => simp at h1
    | cons g ng =>
      cases nv with
      | nil => simp at h2
      | cons v nv =>
        simp only [List.length_cons] at h1 h2
        have ht := ih ng nv (by omega) (by omega)
        simp only [List.zip_cons_cons, List.map_cons, scoreRow] at ht ⊢
        rw [ht]

theorem zip_scoreRow_volatility : ∀ (rows : List MetricsRow) (ng nv : List (Option ℚ)),
    ng.length = rows.length → nv.length = rows.length →
    ((rows.zip (ng.zip nv)).map fun rc => (scoreRow rc.1 rc.2.1 rc.2.2).norm_volatility) = nv := by
  intro rows
  induction rows with
  | nil =>
    intro ng nv h1 h2
    cases nv with
    | nil => simp
    | cons v nv => simp at h2
  | cons r rows ih =>
    intro ng nv h1 h2
    cases ng with
    | nil => simp at h1
    | cons g ng =>
      cases nv with
      | nil => simp at h2
      | cons v nv =>
        simp only [List.length_cons] at h1 h2
        have ht := ih ng nv (by omega) (by omega)
        simp only [List.zip_cons_cons, List.map_cons, scoreRow] at ht ⊢
        rw [ht]

theorem scoreTable_norm_growth_col (rows : List MetricsRow) :
    (scoreTable rows).map ScoredRow.norm_growth =
      minmaxNormalize (rows.map fun r => r.growth_rate) := by
  simp only [scoreTable, List.map_map]
  exact zip_scoreRow_growth rows _ _
    (by rw [minmaxNormalize_length, List.length_map])
    (by rw [minmaxNormalize_length, List.length_map])

theorem scoreTable_norm_volatility_col (rows : List MetricsRow) :
    (scoreTable rows).map ScoredRow.norm_volatility =
      minmaxNormalize (rows.map fun r => r.volatility) := by
  simp only [scoreTable, List.map_map]
  exact zip_scoreRow_volatility rows _ _
    (by rw [minmaxNormalize_length, List.length_map])
    (by rw [minmaxNormalize_length, List.length_map])

/-- C3: over a cohort of defined values whose minimum lo and maximum hi differ,
min-max normalization sends every value into [0, 1], sends a value equal to lo
to 0 and a value equal to hi to 1; the norm_growth and norm_volatility columns
of the scored table are exactly this normalization of the growth_rate and
volatility columns. -/
theorem minmax_normalization_bounds (vs : List ℚ) (lo hi : ℚ)
    (hmin : listMin vs = some lo) (hmax : listMax vs = some hi) (hne : lo ≠ hi) :
    (∀ o ∈ minmaxNormalize (vs.map some), ∃ q, o = some q ∧ 0 ≤ q ∧ q ≤ 1) ∧
    (∀ i : ℕ, vs[i]? = some lo → (minmaxNormalize (vs.map some))[i]? = some (some 0)) ∧
    (∀ i : ℕ, vs[i]? = some hi → (minmaxNormalize (vs.map some))[i]? = some (some 1)) ∧
    (∀ rows : List MetricsRow, (scoreTable rows).map ScoredRow.norm_growth =
      minmaxNormalize (rows.map fun r => r.growth_rate)) ∧
    (∀ rows : List MetricsRow, (scoreTable rows).map ScoredRow.norm_volatility =
      minmaxNormalize (rows.map fun r => r.volatility)) := by
  have hlo := listMin_spec hmin
  have hhi := listMax_spec hmax
  have hlt : lo < hi := lt_of_le_of_ne (hlo.2 hi hhi.1) hne
  have hpos : (0 : ℚ) < hi - lo := by linarith
  have hfix : minmaxNormalize (vs.map some) =
      vs.map fun x => some ((x - lo) / (hi - lo)) := by
    unfold minmaxNormalize colMin colMax
    rw [filterMap_id_map_some, hmin, hmax]
    simp [Ne.symm hne, List.map_map, Function.comp]
  refine ⟨?_, ?_, ?_, scoreTable_norm_growth_col, scoreTable_norm_volatility_col⟩
  · rw [hfix]
    intro o ho
    obtain ⟨x, hx, rfl⟩ := List.mem_map.mp ho
    refine ⟨(x - lo) / (hi - lo), rfl, ?_, ?_⟩
    · exact div_nonneg (by linarith [hlo.2 x hx]) (le_of_lt hpos)
    · rw [div_le_one hpos]
      linarith [hhi.2 x hx]
  · intro i hil
    rw [hfix, List.getElem?_map, hil]
    simp
  · intro i hih
    rw [hfix, List.getElem?_map, hih]
    simp [div_self (ne_of_gt hpos)]

/-- Witness for C3 on the cohort [1, 3, 2]. -/
theorem minmax_normalization_bounds_witness :
    listMin [(1 : ℚ), 3, 2] = some 1 ∧ listMax [(1 : ℚ), 3, 2] = some 3 ∧
    (∀ o ∈ minmaxNormalize ([(1 : ℚ), 3, 2].map some), ∃ q, o = some q ∧ 0 ≤ q ∧ q ≤ 1) ∧
    (∀ i : ℕ, [(1 : ℚ), 3, 2][i]? = some 1 →
      (minmaxNormalize ([(1 : ℚ), 3, 2].map some))[i]? = some (some 0)) ∧
    (∀ i : ℕ, [(1 : ℚ), 3, 2][i]? = some 3 →
      (minmaxNormalize ([(1 : ℚ), 3, 2].map some))[i]? = some (some 1)) := by
  have h := minmax_normalization_bounds [(1 : ℚ), 3, 2] 1 3
    (by norm_num [listMin]) (by norm_num [listMax]) (by norm_num)
  exact ⟨by norm_num [listMin], by norm_num [listMax], h.1, h.2.1, h.2.2.1⟩

/-! Claim C7. -/

/-- C7 counterexample: the fetcher has no try/except, so a network error raised
by requests.get and a JSON decode error raised by r.json() on a 200 response
propagate to the caller instead of becoming an absent value. -/
theorem fetcher_exception_counterexample :
    load_protocol_tvl HttpResult.failure = Except.error FetchError.networkError ∧
    load_protocol_tvl (HttpResult.response 200 none) =
      Except.error FetchError.jsonDecodeError := by
  exact ⟨rfl, rfl⟩

/-- C7 amended: the fetcher returns the explicit absent value for a non-200
response, a missing or non-list tvl field, an empty record list, or a record
list without the totalLiquidityUSD column; but a network error or a malformed
JSON payload on a 200 response escapes as an exception. -/
theorem fetcher_error_handling :
    (∀ (status : Nat) (body : Option TvlField), status ≠ 200 →
      load_protocol_tvl (HttpResult.response status body) = Except.ok none) ∧
    load_protocol_tvl (HttpResult.response 200 (some TvlField.missing)) = Except.ok none ∧
    load_protocol_tvl (HttpResult.response 200 (some TvlField.notList)) = Except.ok none ∧
    load_protocol_tvl (HttpResult.response 200 (some (TvlField.list []))) = Except.ok none ∧
    (∀ records : List TvlRecord, hasLiquidityColumn records = false →
      load_protocol_tvl (HttpResult.response 200 (some (TvlField.list records))) =
        Except.ok none) ∧
    load_protocol_tvl HttpResult.failure = Except.error FetchError.networkError ∧
    load_protocol_tvl (HttpResult.response 200 none) =
      Except.error FetchError.jsonDecodeError := by
  refine ⟨?_, rfl, rfl, rfl, ?_, rfl, rfl⟩
  · intro status body h
    simp [load_protocol_tvl, h]
  · intro records h
    simp [load_protocol_tvl, h]

/-- Witness for C7 amended at a 404 response and a column-less record list. -/
theorem fetcher_error_handling_witness :
    (404 : Nat) ≠ 200 ∧
    load_protocol_tvl (HttpResult.response 404 none) = Except.ok none ∧
    hasLiquidityColumn [{ date := 5, totalLiquidityUSD := none }] = false ∧
    load_protocol_tvl
      (HttpResult.response 200
        (some (TvlField.list [{ date := 5, totalLiquidityUSD := none }]))) = Except.ok none :=
  ⟨by decide, fetcher_error_handling.1 404 none (by decide), by decide,
   fetcher_error_handling.2.2.2.2.1 [{ date := 5, totalLiquidityUSD := none }] (by decide)⟩

/-! Claim C8. -/

/-- Two valid records in descending date order, as an external API could return
them. -/
def unsortedRecords : List TvlRecord :=
  [{ date := 2, totalLiquidityUSD := some 1 }, { date := 1, totalLiquidityUSD := some 2 }]

/-- C8 counterexample: load_protocol_tvl performs no sort, so a successful
response whose records arrive in descending date order is returned in that
same, non-ascending order. -/
theorem fetcher_unsorted_counterexample :
    load_protocol_tvl (HttpResult.response 200 (some (TvlField.list unsortedRecords))) =
      Except.ok (some unsortedRecords) ∧
    ¬ (unsortedRecords.map TvlRecord.date).Sorted (· ≤ ·) := by
  constructor
  · rfl
  · intro h
    simp only [unsortedRecords, List.map_cons, List.map_nil] at h
    have h2 := List.rel_of_sorted_cons h 1 (by simp)
    omega

/-- C8 amended: on a successful fetch the record order of the API response is
preserved one-to-one (dates decoded from epoch seconds, values untouched), so
the output is ascending by date exactly when the API payload already was. -/
theorem fetcher_preserves_api_order (records : List TvlRecord)
    (hne : records.isEmpty = false) (hcol : hasLiquidityColumn records = true) :
    load_protocol_tvl (HttpResult.response 200 (some (TvlField.list records))) =
      Except.ok (some (records.map fun r => { r with date := decodeDate r.date })) ∧
    ((records.map fun r => { r with date := decodeDate r.date }).map TvlRecord.date =
      records.map fun r => decodeDate r.date) ∧
    ((records.map fun r => { r with date := decodeDate r.date }).map
      TvlRecord.totalLiquidityUSD = records.map TvlRecord.totalLiquidityUSD) ∧
    (((records.map fun r => { r with date := decodeDate r.date }).map
        TvlRecord.date).Sorted (· ≤ ·) ↔
      (records.map fun r => decodeDate r.date).Sorted (· ≤ ·)) := by
  refine ⟨?_, ?_, ?_, ?_⟩
  · simp [load_protocol_tvl, hne, hcol]
  · simp [List.map_map, Function.comp]
  · simp [List.map_map, Function.comp]
  · rw [List.map_map]
    exact Iff.of_eq (congrArg _ (by simp [Function.comp]))

/-- Witness for C8 amended on the two descending records. -/
theorem fetcher_preserves_api_order_witness :
    unsortedRecords.isEmpty = false ∧ hasLiquidityColumn unsortedRecords = true ∧
    load_protocol_tvl (HttpResult.response 200 (some (TvlField.list unsortedRecords))) =
      Except.ok (some (unsortedRecords.map fun r => { r with date := decodeDate r.date })) :=
  ⟨by decide, by decide,
   (fetcher_preserves_api_order unsortedRecords (by decide) (by decide)).1⟩

/-! Claims C6 and C9: membership characterizations. -/

theorem mem_metricsRows_iff {sqrtFn : ℚ → ℚ} {fetch : String → Option (List TvlRecord)}
    {ps : List ProtocolDescriptor} {r : MetricsRow} :
    r ∈ metricsRows sqrtFn fetch ps ↔
      ∃ p ∈ ps, ∃ hist, fetch p.slug = some hist ∧ 14 ≤ hist.length ∧
        r = computeMetricsRow sqrtFn p.name hist := by
  simp only [metricsRows, List.mem_filterMap]
  constructor
  · rintro ⟨p, hp, hF⟩
    cases hf : fetch p.slug with
    | none => rw [hf] at hF; cases hF
    | some hist =>
      rw [hf] at hF
      dsimp only at hF
      by_cases hlen : hist.length < 14
      · rw [if_pos hlen] at hF; cases hF
      · rw [if_neg hlen] at hF
        exact ⟨p, hp, hist, hf, by omega, (Option.some.inj hF).symm⟩
  · rintro ⟨p, hp, hist, hf, hlen, rfl⟩
    refine ⟨p, hp, ?_⟩
    rw [hf]
    dsimp only
    rw [if_neg (by omega)]

theorem mem_snapshotRows_iff {fetch : String → Option (List TvlRecord)}
    {ps : List ProtocolDescriptor} {row : SnapshotRow} :
    row ∈ snapshotRows fetch ps ↔
      ∃ p ∈ ps, ∃ hist, fetch p.slug = some hist ∧
        row = { name := p.name, slug := p.slug, tvl := lastLiquidity hist } := by
  simp only [snapshotRows, List.mem_filterMap]
  constructor
  · rintro ⟨p, hp, hF⟩
    cases hf : fetch p.slug with
    | none => rw [hf] at hF; cases hF
    | some hist =>
      rw [hf] at hF
      exact ⟨p, hp, hist, hf, (Option.some.inj hF).symm⟩
  · rintro ⟨p, hp, hist, hf, rfl⟩
    refine ⟨p, hp, ?_⟩
    simp [hf]

/-- C6: a protocol appears in the Metrics Engine output exactly when its fetch
returned a series of length at least 14 (so 13 points fail and 14 pass); the
Snapshot Builder only requires the fetch to have returned data at all, and the
fetcher never returns an empty series. -/
theorem metrics_inclusion_iff (sqrtFn : ℚ → ℚ) (fetch : String → Option (List TvlRecord))
    (p : ProtocolDescriptor) (hp : p ∈ SOLANA_PROTOCOLS) :
    ((∃ r ∈ compute_adoption_metrics sqrtFn fetch, r.protocol = p.name) ↔
      ∃ hist, fetch p.slug = some hist ∧ 14 ≤ hist.length) ∧
    ((∃ row ∈ build_protocol_snapshot fetch, row.slug = p.slug) ↔
      (fetch p.slug).isSome = true) ∧
    (∀ (hr : HttpResult) (hist : List TvlRecord),
      load_protocol_tvl hr = Except.ok (some hist) → hist ≠ []) := by
  have hname : ∀ a ∈ SOLANA_PROTOCOLS, ∀ b ∈ SOLANA_PROTOCOLS, a.name = b.name → a = b := by
    decide
  have hslug : ∀ a ∈ SOLANA_PROTOCOLS, ∀ b ∈ SOLANA_PROTOCOLS, a.slug = b.slug → a = b := by
    decide
  refine ⟨?_, ?_, ?_⟩
  · constructor
    · rintro ⟨r, hr, hpn⟩
      obtain ⟨q, hq, hist, hf, hlen, rfl⟩ := mem_metricsRows_iff.mp hr
      have hqn : q.name = p.name := by simpa [computeMetricsRow] using hpn
      obtain rfl : q = p := hname q hq p hp hqn
      exact ⟨hist, hf, hlen⟩
    · rintro ⟨hist, hf, hlen⟩
      exact ⟨computeMetricsRow sqrtFn p.name hist,
        mem_metricsRows_iff.mpr ⟨p, hp, hist, hf, hlen, rfl⟩, by simp [computeMetricsRow]⟩
  · constructor
    · rintro ⟨row, hrow, hps⟩
      obtain ⟨q, hq, hist, hf, rfl⟩ := mem_snapshotRows_iff.mp hrow
      obtain rfl : q = p := hslug q hq p hp hps
      rw [hf]
      rfl
    · intro hsome
      obtain ⟨hist, hf⟩ := Option.isSome_iff_exists.mp hsome
      exact ⟨_, mem_snapshotRows_iff.mpr ⟨p, hp, hist, hf, rfl⟩, rfl⟩
  · intro hr hist h
    cases hr with
    | failure => cases h
    | response status body =>
      by_cases hs : status = 200
      · subst hs
        cases body with
        | none => simp [load_protocol_tvl] at h
        | some tf =>
          cases tf with
          | missing => simp [load_protocol_tvl] at h
          | notList => simp [load_protocol_tvl] at h
          | list records =>
            by_cases he : (records.isEmpty || !hasLiquidityColumn records) = true
            · simp [load_protocol_tvl, he] at h
            · rw [Bool.not_eq_true] at he
              have h200 : ¬((200 : Nat) ≠ 200) := by simp
              simp only [load_protocol_tvl, if_neg h200, he, Bool.false_eq_true, if_false,
                Except.ok.injEq, Option.some.injEq] at h
              have hrec : records ≠ [] := by
                intro h0
                subst h0
                simp at he
              intro h0
              rw [h0] at h
              exact hrec (by simpa using h)
      · simp [load_protocol_tvl, hs] at h

/-- Thirteen-point series at one TVL unit per day. -/
def series13 : List TvlRecord := mkSeries ((List.range 13).map fun i => (Int.ofNat i, 1))

/-- Fourteen-point series at one TVL unit per day. -/
def series14 : List TvlRecord := mkSeries ((List.range 14).map fun i => (Int.ofNat i, 1))

/-- Fetch oracle for the boundary scenario: 13 points for raydium, 14 for orca,
no data otherwise. -/
def fetchBoundary : String → Option (List TvlRecord) := fun sl =>
  if sl = "raydium" then some series13
  else if sl = "orca" then some series14
  else none

/-- Witness for C6 at the 13/14 boundary. -/
theorem metrics_inclusion_iff_witness :
    ((⟨"Raydium", "raydium"⟩ : ProtocolDescriptor) ∈ SOLANA_PROTOCOLS) ∧
    ((∃ r ∈ compute_adoption_metrics id fetchBoundary, r.protocol = "Raydium") ↔
      ∃ hist, fetchBoundary "raydium" = some hist ∧ 14 ≤ hist.length) ∧
    ((∃ r ∈ compute_adoption_metrics id fetchBoundary, r.protocol = "Orca") ↔
      ∃ hist, fetchBoundary "orca" = some hist ∧ 14 ≤ hist.length) :=
  ⟨by decide,
   (metrics_inclusion_iff id fetchBoundary ⟨"Raydium", "raydium"⟩ (by decide)).1,
   (metrics_inclusion_iff id fetchBoundary ⟨"Orca", "orca"⟩ (by decide)).1⟩

theorem snapshotRows_slug_mem {fetch : String → Option (List TvlRecord)}
    {ps : List ProtocolDescriptor} {row : SnapshotRow} (h : row ∈ snapshotRows fetch ps) :
    row.slug ∈ ps.map ProtocolDescriptor.slug := by
  obtain ⟨p, hp, hist, hf, rfl⟩ := mem_snapshotRows_iff.mp h
  exact List.mem_map_of_mem ProtocolDescriptor.slug hp

theorem snapshotRows_count (fetch : String → Option (List TvlRecord)) :
    ∀ ps : List ProtocolDescriptor, (ps.map ProtocolDescriptor.slug).Nodup →
    ∀ p ∈ ps, ((snapshotRows fetch ps).filter fun row => row.slug == p.slug).length =
      if (fetch p.slug).isSome then 1 else 0 := by
  intro ps
  induction ps with
  | nil => intro _ p hp; cases hp
  | cons q ps ih =>
    intro hnd p hp
    rw [List.map_cons, List.nodup_cons] at hnd
    obtain ⟨hq_not, hnd'⟩ := hnd
    have hhead : snapshotRows fetch (q :: ps) =
        (match fetch q.slug with
          | none => snapshotRows fetch ps
          | some hist =>
            ({ name := q.name, slug := q.slug, tvl := lastLiquidity hist } : SnapshotRow) ::
              snapshotRows fetch ps) := by
      simp only [snapshotRows, List.filterMap_cons]
      cases fetch q.slug <;> rfl
    rcases List.mem_cons.mp hp with rfl | hp'
    · have htail : ((snapshotRows fetch ps).filter fun row => row.slug == p.slug).length = 0 := by
        rw [List.length_eq_zero, List.filter_eq_nil_iff]
        intro row hrow
        simp only [beq_iff_eq]
        intro heq
        exact hq_not (heq ▸ snapshotRows_slug_mem hrow)
      rw [hhead]
      cases hf : fetch p.slug with
      | none => simpa using htail
      | some hist =>
        simp only [List.filter_cons, beq_self_eq_true, if_pos, List.length_cons, htail,
          Option.isSome_some, if_true]
    · have hqp : q.slug ≠ p.slug := by
        intro heq
        exact hq_not (heq ▸ List.mem_map_of_mem ProtocolDescriptor.slug hp')
      rw [hhead]
      cases hf : fetch q.slug with
      | none => exact ih hnd' p hp'
      | some hist =>
        rw [List.filter_cons]
        simp only [beq_iff_eq]
        rw [if_neg (by simpa using hqp)]
        exact ih hnd' p hp'

/-- C9: for every known protocol the snapshot holds exactly one row when its
fetch returned data and none otherwise; every matching row carries the protocol
name and the last cell of the fetched series as its tvl; lastLiquidity is the
last record's totalLiquidityUSD on a non-empty series; and if the fetch for
slug drift returned no data there is no row named Drift. -/
theorem snapshot_rows_spec (fetch : String → Option (List TvlRecord))
    (p : ProtocolDescriptor) (hp : p ∈ SOLANA_PROTOCOLS) :
    (((build_protocol_snapshot fetch).filter fun row => row.slug == p.slug).length =
      if (fetch p.slug).isSome then 1 else 0) ∧
    (∀ row ∈ build_protocol_snapshot fetch, row.slug = p.slug →
      row.name = p.name ∧ ∃ hist, fetch p.slug = some hist ∧ row.tvl = lastLiquidity hist) ∧
    (∀ (hist : List TvlRecord) (h : hist ≠ []),
      lastLiquidity hist = (hist.getLast h).totalLiquidityUSD) ∧
    (fetch "drift" = none → ∀ row ∈ build_protocol_snapshot fetch, row.name ≠ "Drift") := by
  have hslug : ∀ a ∈ SOLANA_PROTOCOLS, ∀ b ∈ SOLANA_PROTOCOLS, a.slug = b.slug → a = b := by
    decide
  refine ⟨snapshotRows_count fetch SOLANA_PROTOCOLS (by decide) p hp, ?_, ?_, ?_⟩
  · intro row hrow heq
    obtain ⟨q, hq, hist, hf, rfl⟩ := mem_snapshotRows_iff.mp hrow
    obtain rfl : q = p := hslug q hq p hp heq
    exact ⟨rfl, hist, hf, rfl⟩
  · intro hist h
    unfold lastLiquidity
    rw [List.getLast?_eq_getLast hist h]
    rfl
  · intro hd row hrow hname
    obtain ⟨q, hq, hist, hf, rfl⟩ := mem_snapshotRows_iff.mp hrow
    have hqd : q.slug = "drift" := by
      have : ∀ a ∈ SOLANA_PROTOCOLS, a.name = "Drift" → a.slug = "drift" := by decide
      exact this q hq hname
    rw [hqd, hd] at hf
    cases hf

/-- Fetch oracle for the 404-drift scenario: only raydium returns data. -/
def fetchNoDrift : String → Option (List TvlRecord) := fun sl =>
  if sl = "raydium" then some (mkSeries [(0, 5)]) else none

/-- Witness for C9: with no data for drift, the snapshot holds no drift row. -/
theorem snapshot_rows_spec_witness :
    ((⟨"Drift", "drift"⟩ : ProtocolDescriptor) ∈ SOLANA_PROTOCOLS) ∧
    (((build_protocol_snapshot fetchNoDrift).filter fun row => row.slug == "drift").length =
      if (fetchNoDrift "drift").isSome then 1 else 0) :=
  ⟨by decide, (snapshot_rows_spec fetchNoDrift ⟨"Drift", "drift"⟩ (by decide)).1⟩

/-! Claim C10. -/

/-- C10: a qualifying series with pairwise-distinct dates yields the same
metrics row under any permutation of its rows, because the engine re-sorts by
date before computing anything. -/
theorem metrics_permutation_invariant (sqrtFn : ℚ → ℚ) (nm : String)
    (s t : List TvlRecord) (hperm : s.Perm t)
    (hdates : s.Pairwise fun a b => a.date ≠ b.date) :
    computeMetricsRow sqrtFn nm s = computeMetricsRow sqrtFn nm t := by
  have hsymm : ∀ {a b : TvlRecord}, a.date ≠ b.date → b.date ≠ a.date := fun h => h.symm
  have e1 : (List.insertionSort dateLe s).Perm (List.insertionSort dateLe t) :=
    ((List.perm_insertionSort dateLe s).trans hperm).trans
      (List.perm_insertionSort dateLe t).symm
  have hd1 : (List.insertionSort dateLe s).Pairwise fun a b => a.date ≠ b.date :=
    ((List.perm_insertionSort dateLe s).pairwise_iff hsymm).mpr hdates
  have hd2 : (List.insertionSort dateLe t).Pairwise fun a b => a.date ≠ b.date :=
    ((List.perm_insertionSort dateLe t).pairwise_iff hsymm).mpr
      ((hperm.pairwise_iff hsymm).mp hdates)
  have hs1 : (List.insertionSort dateLe s).Pairwise dateLe :=
    List.sorted_insertionSort dateLe s
  have hs2 : (List.insertionSort dateLe t).Pairwise dateLe :=
    List.sorted_insertionSort dateLe t
  have hlt1 : (List.insertionSort dateLe s).Pairwise fun a b => a.date < b.date :=
    (hs1.and hd1).imp fun h => lt_of_le_of_ne h.1 h.2
  have hlt2 : (List.insertionSort dateLe t).Pairwise fun a b => a.date < b.date :=
    (hs2.and hd2).imp fun h => lt_of_le_of_ne h.1 h.2
  haveI : IsAntisymm TvlRecord fun a b => a.date < b.date :=
    ⟨fun _ _ h1 h2 => absurd h2 (not_lt.mpr (le_of_lt h1))⟩
  have hsort : List.insertionSort dateLe s = List.insertionSort dateLe t :=
    List.eq_of_perm_of_sorted e1 hlt1 hlt2
  unfold computeMetricsRow
  rw [hsort]

/-- Witness for C10 on a two-row series and its reversal. -/
theorem metrics_permutation_invariant_witness :
    ([{ date := 1, totalLiquidityUSD := some 5 },
      { date := 0, totalLiquidityUSD := some 6 }] : List TvlRecord).Perm
      [{ date := 0, totalLiquidityUSD := some 6 },
       { date := 1, totalLiquidityUSD := some 5 }] ∧
    computeMetricsRow id "X"
        [{ date := 1, totalLiquidityUSD := some 5 },
         { date := 0, totalLiquidityUSD := some 6 }] =
      computeMetricsRow id "X"
        [{ date := 0, totalLiquidityUSD := some 6 },
         { date := 1, totalLiquidityUSD := some 5 }] :=
  ⟨by decide, metrics_permutation_invariant id "X" _ _ (by decide) (by decide)⟩

/-! Claim C1. -/

theorem mkSeries_insertionSort (l : List (Int × ℚ)) :
    List.insertionSort dateLe (mkSeries l) =
      (List.insertionSort pairLe l).map mkRecord := by
  have h := List.map_insertionSort (r := pairLe) (s := dateLe) mkRecord l
    (fun a _ b _ => Iff.rfl)
  rw [show mkSeries l = List.map mkRecord l from rfl]
  exact h.symm

/-- C1: for a qualifying series the emitted growth_rate is the last value over
the first value, after sorting chronologically ascending, minus one. -/
theorem growth_rate_last_div_first (sqrtFn : ℚ → ℚ) (nm : String)
    (l : List (Int × ℚ)) (h14 : 14 ≤ l.length) (a b : Int × ℚ)
    (hhead : (List.insertionSort pairLe l).head? = some a)
    (hlast : (List.insertionSort pairLe l).getLast? = some b) (ha : a.2 ≠ 0) :
    (computeMetricsRow sqrtFn nm (mkSeries l)).growth_rate = some (b.2 / a.2 - 1) := by
  simp only [computeMetricsRow, mkSeries_insertionSort, List.map_map]
  rw [List.head?_map, List.getLast?_map, hhead, hlast]
  rfl

/-- Scenario A series: 14 daily points from 100 to 135. -/
def scenarioA : List (Int × ℚ) :=
  [(0, 100), (1, 110), (2, 121), (3, 100), (4, 90), (5, 95), (6, 105),
   (7, 115), (8, 120), (9, 118), (10, 122), (11, 130), (12, 128), (13, 135)]

/-- Witness for C1 on scenario A: growth_rate is 135/100 - 1 = 0.35. -/
theorem growth_rate_last_div_first_witness :
    14 ≤ scenarioA.length ∧ ((100 : ℚ) ≠ 0) ∧
    (computeMetricsRow id "X" (mkSeries scenarioA)).growth_rate = some (35 / 100) := by
  have hsorted : scenarioA.Sorted pairLe := by decide
  have heq : List.insertionSort pairLe scenarioA = scenarioA := hsorted.insertionSort_eq
  have h := growth_rate_last_div_first id "X" scenarioA (by decide) (0, 100) (13, 135)
    (by rw [heq]; rfl) (by rw [heq]; rfl) (by norm_num)
  refine ⟨by decide, by norm_num, ?_⟩
  rw [h]
  norm_num

/-! Claim C2: the rolling-window development. -/

theorem pctChangeAux_map_some (p : ℚ) (cs : List ℚ) :
    pctChangeAux (some p) (cs.map some) = (pctList p cs).map some := by
  induction cs generalizing p with
  | nil => rfl
  | cons c cs ih => simp [pctChangeAux, pctList, pctCell, ih]

theorem pctChange_map_some (v : ℚ) (vs : List ℚ) :
    pctChange ((v :: vs).map some) = none :: (pctList v vs).map some := by
  simp [pctChange, pctChangeAux_map_some]

theorem pctList_length (p : ℚ) (cs : List ℚ) : (pctList p cs).length = cs.length := by
  induction cs generalizing p with
  | nil => rfl
  | cons c cs ih => simp [pctList, ih]

theorem specPct_length (vs : List ℚ) : (specPct vs).length = vs.length - 1 := by
  cases vs with
  | nil => rfl
  | cons v vs => simp [specPct, pctList_length]

theorem windows7_eq_nil {l : List ℚ} (h : l.length < 7) : windows7 l = [] := by
  cases l with
  | nil => rfl
  | cons x xs =>
    rw [windows7, if_neg]
    simp only [List.length_cons] at h
    omega

theorem windows7_eq_cons {l : List ℚ} (h : 7 ≤ l.length) :
    windows7 l = l.take 7 :: windows7 l.tail := by
  cases l with
  | nil => simp at h
  | cons x xs =>
    have h7 : 7 ≤ xs.length + 1 := by simpa using h
    rw [windows7, if_pos h7]
    rfl

theorem windows7_ne_nil {l : List ℚ} (h : 7 ≤ l.length) : windows7 l ≠ [] := by
  rw [windows7_eq_cons h]
  simp


/-- Steady state of the rolling scan: once the buffer is a full window of seven
defined cells, each step emits the sample standard deviation of the window
slid by one, so the defined outputs are exactly the width-7 windows. -/
theorem rollAux_full (sqrtFn : ℚ → ℚ) :
    ∀ (ds ws : List ℚ), ws.length = 7 →
    (rollAux sqrtFn (ws.map some) (ds.map some)).filterMap id =
      (windows7 (ws.tail ++ ds)).map fun w => sqrtFn (sampleVar w) := by
  intro ds
  induction ds with
  | nil =>
    intro ws hw
    rw [List.map_nil, windows7_eq_nil (by simp [hw])]
    rfl
  | cons d ds ih =>
    intro ws hw
    obtain ⟨w0, wt, rfl⟩ : ∃ w0 wt, ws = w0 :: wt := by
      cases ws with
      | nil => simp at hw
      | cons w0 wt => exact ⟨w0, wt, rfl⟩
    obtain ⟨u, ut, rfl⟩ : ∃ u ut, wt = u :: ut := by
      cases wt with
      | nil => simp at hw
      | cons u ut => exact ⟨u, ut, rfl⟩
    have hut : ut.length = 5 := by simpa using hw
    simp only [List.map_cons, rollAux, List.length_cons, List.length_map, List.cons_append]
    have hb : List.drop (ut.length + 1 + 1 + 1 - 7)
        (some w0 :: some u :: (List.map some ut ++ [some d])) =
        ((u :: ut) ++ [d]).map some := by
      rw [show ut.length + 1 + 1 + 1 - 7 = 1 from by omega]
      simp
    rw [hb]
    have hstd : stdOfWindow sqrtFn (((u :: ut) ++ [d]).map some) =
        some (sqrtFn (sampleVar ((u :: ut) ++ [d]))) := by
      unfold stdOfWindow
      rw [filterMap_id_map_some, if_pos (by simp [hut])]
    rw [hstd, List.filterMap_cons]
    simp only [id]
    rw [ih ((u :: ut) ++ [d]) (by simp [hut]), List.tail_cons]
    rw [windows7_eq_cons (show 7 ≤ ((u :: ut) ++ d :: ds).length from by simp [hut]; omega)]
    have htake : ((u :: ut) ++ d :: ds).take 7 = (u :: ut) ++ [d] := by
      rw [show (7 : ℕ) = (u :: ut).length + 1 from by simp [hut], List.take_append]
      rfl
    have htail2 : ((u :: ut) ++ d :: ds).tail = (ut ++ [d]) ++ ds := by
      simp
    rw [htake, htail2, List.map_cons]
    simp

/-- Ramp-up of the rolling scan behind the leading NaN of pct_change: while
the NaN is still inside the window no value is emitted; once seven defined
cells follow it, the steady state takes over. -/
theorem rollAux_ramp (sqrtFn : ℚ → ℚ) :
    ∀ (ds pre : List ℚ), pre.length ≤ 6 →
    (rollAux sqrtFn (none :: pre.map some) (ds.map some)).filterMap id =
      (windows7 (pre ++ ds)).map fun w => sqrtFn (sampleVar w) := by
  intro ds
  induction ds with
  | nil =>
    intro pre hpre
    rw [List.map_nil, windows7_eq_nil (by simp; omega)]
    rfl
  | cons d ds ih =>
    intro pre hpre
    simp only [List.map_cons, rollAux, List.length_cons, List.length_map, List.cons_append]
    by_cases hk : pre.length = 6
    · have hb : List.drop (pre.length + 1 + 1 - 7) (none :: (List.map some pre ++ [some d])) =
          (pre ++ [d]).map some := by
        rw [hk]
        simp
      rw [hb]
      have hstd : stdOfWindow sqrtFn ((pre ++ [d]).map some) =
          some (sqrtFn (sampleVar (pre ++ [d]))) := by
        unfold stdOfWindow
        rw [filterMap_id_map_some, if_pos (by simp [hk])]
      rw [hstd, List.filterMap_cons]
      simp only [id]
      rw [rollAux_full sqrtFn ds (pre ++ [d]) (by simp [hk])]
      rw [windows7_eq_cons (show 7 ≤ (pre ++ d :: ds).length from by simp [hk]; omega)]
      have htake : (pre ++ d :: ds).take 7 = pre ++ [d] := by
        rw [show (7 : ℕ) = pre.length + 1 from by omega, List.take_append]
        rfl
      have htail2 : (pre ++ d :: ds).tail = (pre ++ [d]).tail ++ ds := by
        obtain ⟨p0, pt, rfl⟩ : ∃ p0 pt, pre = p0 :: pt := by
          cases pre with
          | nil => simp at hk
          | cons p0 pt => exact ⟨p0, pt, rfl⟩
        simp
      rw [htake, htail2, List.map_cons]
    · have hk0 : pre.length + 1 + 1 - 7 = 0 := by omega
      have hb : List.drop (pre.length + 1 + 1 - 7) (none :: (List.map some pre ++ [some d])) =
          none :: (pre ++ [d]).map some := by
        rw [hk0]
        simp
      rw [hb]
      have hstd : stdOfWindow sqrtFn (none :: (pre ++ [d]).map some) = none := by
        unfold stdOfWindow
        rw [show List.filterMap id (none :: (pre ++ [d]).map some) =
            List.filterMap id ((pre ++ [d]).map some) from rfl]
        rw [filterMap_id_map_some, if_neg (by simp; omega)]
      rw [hstd, List.filterMap_cons]
      simp only [id]
      have := ih (pre ++ [d]) (by simp; omega)
      rw [show rollAux sqrtFn (none :: (pre ++ [d]).map some) (List.map some ds) =
          rollAux sqrtFn (none :: List.map some (pre ++ [d])) (List.map some ds) from rfl]
      rw [this, List.append_assoc]
      rfl

/-- The defined cells of rolling(7).std() over a series with one leading NaN
are exactly the sample standard deviations of the width-7 windows of the
defined suffix. -/
theorem rollingStd7_leading_nan (sqrtFn : ℚ → ℚ) (ds : List ℚ) :
    (rollingStd7 sqrtFn (none :: ds.map some)).filterMap id =
      (windows7 ds).map fun w => sqrtFn (sampleVar w) := by
  unfold rollingStd7
  simp only [rollAux, List.length_nil, List.nil_append]
  have hb : List.drop (0 + 1 - 7) [(none : Option ℚ)] = [none] := by simp
  rw [hb]
  have hstd : stdOfWindow sqrtFn [(none : Option ℚ)] = none := by
    unfold stdOfWindow
    simp
  rw [hstd, List.filterMap_cons]
  simp only [id]
  have := rollAux_ramp sqrtFn ds [] (by simp)
  simpa using this

/-- C2: for a qualifying series the emitted volatility is exactly the
arithmetic mean of the 7-sample rolling standard deviations of the day-over-day
percentage-change series, windows lacking 7 defined observations excluded. -/
theorem volatility_eq_specVolatility (sqrtFn : ℚ → ℚ) (nm : String)
    (l : List (Int × ℚ)) (h14 : 14 ≤ l.length) :
    (computeMetricsRow sqrtFn nm (mkSeries l)).volatility =
      some (specVolatility sqrtFn ((List.insertionSort pairLe l).map Prod.snd)) := by
  simp only [computeMetricsRow, mkSeries_insertionSort, List.map_map]
  have hlen : (List.insertionSort pairLe l).length = l.length :=
    List.length_insertionSort pairLe l
  obtain ⟨v, vs, hv⟩ : ∃ v vs, (List.insertionSort pairLe l).map Prod.snd = v :: vs := by
    cases hvv : (List.insertionSort pairLe l).map Prod.snd with
    | nil =>
      exfalso
      have h2 : (List.insertionSort pairLe l).length = 0 := by
        simpa using congrArg List.length hvv
      rw [hlen] at h2
      omega
    | cons v vs => exact ⟨v, vs, rfl⟩
  have hvs : vs.length = l.length - 1 := by
    have := congrArg List.length hv
    simp [hlen] at this
    omega
  have hcol : (List.insertionSort pairLe l).map ((fun r => r.totalLiquidityUSD) ∘ mkRecord) =
      (v :: vs).map some := by
    rw [← hv, List.map_map]
    rfl
  rw [hcol, pctChange_map_some]
  unfold meanSkipna
  have hfm := rollingStd7_leading_nan sqrtFn (pctList v vs)
  rw [hfm]
  have hwnn : windows7 (pctList v vs) ≠ [] := by
    apply windows7_ne_nil
    rw [pctList_length]
    omega
  rw [if_neg (by simpa using hwnn)]
  rw [hv]
  rfl

/-- Witness for C2 on scenario A. -/
theorem volatility_eq_specVolatility_witness :
    14 ≤ scenarioA.length ∧
    (computeMetricsRow id "X" (mkSeries scenarioA)).volatility =
      some (specVolatility id ((List.insertionSort pairLe scenarioA).map Prod.snd)) :=
  ⟨by decide, volatility_eq_specVolatility id "X" scenarioA (by decide)⟩
